import Mathlib

/-!
# Verification of the jmapserver change-synchronisation engine

Shallow embedding of `src/jmapserver.js`: the mutation engine (`addRecords`),
the change engine (`changes`), the query engine (`get` with
`directGetProperties`) and the dispatch layer (`process`), together with
theorems settling the specification claims about them.

Modelling conventions:
* JS values appearing in requests, stored records and responses are the
  inductive `JSVal`; `undefined` and `null` are separate constructors.
* JS numbers used by this code are integers, modelled as `Int` (modseq
  counters, lengths); `parseInt(s, 10)` is `parseIntJS`, returning `none`
  for `NaN`.
* The IndexedDB object store of one record type is a `List StoredRecord`
  keyed by `id` (`storeGet` / `putRecord`); the `byModSeq` index is the
  store sorted ascending by `_updatedModSeq` (`byModSeqAsc`).  The `Meta`
  row of the type is the `highestModSeq` / `lowestModSeq` fields of
  `TypeState`.
* A transaction whose callback throws aborts without committing; fallible
  operations therefore return `Except`/`CallResult` values and an error
  result carries no state.
-/

set_option linter.unusedVariables false

namespace JMAP

/-- A JavaScript value, as far as this server manipulates them. -/
inductive JSVal where
  | vUndefined : JSVal
  | vNull : JSVal
  | vBool : Bool → JSVal
  | vNum : Int → JSVal
  | vStr : String → JSVal
  | vArr : List JSVal → JSVal
  | vObj : List (String × JSVal) → JSVal

/-- JS truthiness: `undefined`, `null`, `false`, `0` and the empty string are
falsy; every array and object (including empty ones) is truthy. -/
def truthy : JSVal → Bool
  | .vUndefined => false
  | .vNull => false
  | .vBool b => b
  | .vNum n => n != 0
  | .vStr s => s != ""
  | .vArr _ => true
  | .vObj _ => true

/-- `typeof v === 'object'` (true for objects, arrays and `null`). -/
def typeofIsObject : JSVal → Bool
  | .vNull => true
  | .vArr _ => true
  | .vObj _ => true
  | _ => false

/-- First-match lookup in a JS object literal. -/
def objLookup (o : List (String × JSVal)) (k : String) : Option JSVal :=
  match o with
  | [] => none
  | (k2, v) :: rest => if k2 == k then some v else objLookup rest k

/-- JS property assignment `o[k] = v`: overwrite the existing entry in place,
else append a new entry. -/
def objSet (o : List (String × JSVal)) (k : String) (v : JSVal) : List (String × JSVal) :=
  match o with
  | [] => [(k, v)]
  | (k2, v2) :: rest => if k2 == k then (k2, v) :: rest else (k2, v2) :: objSet rest k v

/-- Property read `v[k]`, yielding `undefined` when absent or when `v` is not
an object. -/
def jsGet (v : JSVal) (k : String) : JSVal :=
  match v with
  | .vObj fields => (objLookup fields k).getD .vUndefined
  | _ => .vUndefined

/-- Index read `v[i]`, yielding `undefined` out of range or on non-arrays. -/
def jsIdx (v : JSVal) (i : Nat) : JSVal :=
  match v with
  | .vArr xs => xs.getD i .vUndefined
  | _ => .vUndefined

/-- Value of the maximal leading run of decimal digits; `none` when there is
no leading digit (`parseInt` yields `NaN` there). -/
def parseDigits (cs : List Char) : Option Nat :=
  let ds := cs.takeWhile Char.isDigit
  if ds.isEmpty then none
  else some (ds.foldl (fun a c => a * 10 + (c.toNat - 48)) 0)

/-- JS `parseInt(s, 10)`: skip leading whitespace, accept an optional sign,
then read the maximal decimal-digit run, ignoring any trailing garbage;
`none` models `NaN`. -/
def parseIntJS (s : String) : Option Int :=
  let cs := s.toList.dropWhile (fun c => c == ' ' || c == '\t' || c == '\n' || c == '\r')
  match cs with
  | '-' :: rest => (parseDigits rest).map (fun n => -(n : Int))
  | '+' :: rest => (parseDigits rest).map (fun n => (n : Int))
  | _ => (parseDigits cs).map (fun n => (n : Int))

/-- A record as stored in a type's object store: the `id` key, the user
fields, and the `_createdModSeq` / `_updatedModSeq` / `_deleted` metadata
written by `addRecords`.  `deleted` is the truthiness of `_deleted`. -/
structure StoredRecord where
  id : String
  fields : List (String × JSVal)
  createdModSeq : Int
  updatedModSeq : Int
  deleted : Bool

/-- Per-type storage state: the object store plus the type's `Meta` row
`{highestModSeq, lowestModSeq}`. -/
structure TypeState where
  records : List StoredRecord
  highestModSeq : Int
  lowestModSeq : Int

/-- `typeStore.get(id)`: primary-key lookup. -/
def storeGet (recs : List StoredRecord) (id : String) : Option StoredRecord :=
  recs.find? (fun r => r.id == id)

/-- `typeStore.put(r)`: replace the record with the same key, else insert. -/
def putRecord (recs : List StoredRecord) (r : StoredRecord) : List StoredRecord :=
  if recs.any (fun q => q.id == r.id) then
    recs.map (fun q => if q.id == r.id then r else q)
  else
    recs ++ [r]

/-- An incoming record for `addRecords`: its `id` property (the empty string
standing for an absent/empty, i.e. falsy, id) and its other fields. -/
structure RecordInput where
  id : String
  fields : List (String × JSVal)

/-- JS object spread `{...base, ...upd}` on the user fields. -/
def spreadMerge (base upd : List (String × JSVal)) : List (String × JSVal) :=
  upd.foldl (fun o kv => objSet o kv.1 kv.2) base

/-- The value `addRecords` puts for one input record:
`{...prevValue, ...record, _createdModSeq: prevValue ? prevValue._createdModSeq
: modseq, _updatedModSeq: modseq, _deleted: null}`. -/
def mergeRecord (prevValue : Option StoredRecord) (record : RecordInput) (modseq : Int) :
    StoredRecord :=
  { id := record.id
    fields := spreadMerge (match prevValue with | some p => p.fields | none => []) record.fields
    createdModSeq := match prevValue with | some p => p.createdModSeq | none => modseq
    updatedModSeq := modseq
    deleted := false }

/-- The `records.forEach` loop of `addRecords`, paired with the prefetched
`existing` values: checks the id, draws `modseq + 1`, and collects the values
to put; a missing id throws, aborting the transaction. -/
def addLoop : List (Option StoredRecord × RecordInput) → Int →
    Except String (Int × List StoredRecord)
  | [], modseq => .ok (modseq, [])
  | (prevValue, record) :: rest, modseq =>
    if record.id == "" then .error "Must have an id!"
    else
      match addLoop rest (modseq + 1) with
      | .ok (m, puts) => .ok (m, mergeRecord prevValue record (modseq + 1) :: puts)
      | .error e => .error e

/-- The put values of a batch that passes the id check, in input order,
starting from watermark `modseq`. -/
def mergedBatch : List (Option StoredRecord × RecordInput) → Int → List StoredRecord
  | [], _ => []
  | (prevValue, record) :: rest, modseq =>
    mergeRecord prevValue record (modseq + 1) :: mergedBatch rest (modseq + 1)

/-- `JMAPServer.addRecords`: one readwrite transaction over `Meta` and the
type store.  All `existing` values are read before any write; each record is
merged and put with the next modseq; finally the `Meta` row's
`highestModSeq` is advanced.  A thrown error aborts the whole transaction,
so the error case returns no state. -/
def addRecords (ts : TypeState) (records : List RecordInput) : Except String TypeState :=
  let existing := records.map (fun record => storeGet ts.records record.id)
  match addLoop (existing.zip records) ts.highestModSeq with
  | .ok (modseq, puts) =>
    .ok { records := puts.foldl putRecord ts.records
          highestModSeq := modseq
          lowestModSeq := ts.lowestModSeq }
  | .error e => .error e

/-- Ordering of the `byModSeq` index: ascending `_updatedModSeq`. -/
def modSeqLE (a b : StoredRecord) : Prop :=
  a.updatedModSeq ≤ b.updatedModSeq

instance : DecidableRel modSeqLE :=
  fun a b => inferInstanceAs (Decidable (a.updatedModSeq ≤ b.updatedModSeq))

instance : IsTotal StoredRecord modSeqLE :=
  ⟨fun a b => Int.le_total a.updatedModSeq b.updatedModSeq⟩

instance : IsTrans StoredRecord modSeqLE :=
  ⟨fun _ _ _ h1 h2 => le_trans h1 h2⟩

/-- The `byModSeq` index view of a type store: its records sorted ascending
by `_updatedModSeq` (the `'next'` cursor direction). -/
def byModSeqAsc (recs : List StoredRecord) : List StoredRecord :=
  List.insertionSort modSeqLE recs

/-- The records an `openCursor(IDBKeyRange.lowerBound(sinceModSeq, true),
'next')` cursor over `byModSeq` visits: `_updatedModSeq` strictly above the
bound, ascending. -/
def changesScanList (recs : List StoredRecord) (sinceModSeq : Int) : List StoredRecord :=
  (byModSeqAsc recs).filter (fun r => decide (sinceModSeq < r.updatedModSeq))

/-- Mutable loop state of the `changes` cursor scan. -/
structure ScanAcc where
  upToModSeq : Int
  hasMoreChanges : Bool
  created : List String
  updated : List String
  destroyed : List String

/-- Body of the cursor loop for one visited record: classify it
(`_deleted` / `_createdModSeq > sinceModSeq`) and remember its modseq. -/
def visit (sinceModSeq : Int) (acc : ScanAcc) (record : StoredRecord) : ScanAcc :=
  let acc2 :=
    if record.deleted then
      if ¬ sinceModSeq < record.createdModSeq then
        { acc with destroyed := acc.destroyed ++ [record.id] }
      else acc
    else if sinceModSeq < record.createdModSeq then
      { acc with created := acc.created ++ [record.id] }
    else
      { acc with updated := acc.updated ++ [record.id] }
  { acc2 with upToModSeq := record.updatedModSeq }

/-- The `for await` cursor loop.  The `Nat` argument is
`maxChanges - count`: the code breaks with `hasMoreChanges = true` when
`count === maxChanges` while a record is still pending. -/
def scanLoop (sinceModSeq : Int) : List StoredRecord → Nat → ScanAcc → ScanAcc
  | [], _, acc => acc
  | _ :: _, 0, acc => { acc with hasMoreChanges := true }
  | record :: rest, Nat.succ n, acc =>
    scanLoop sinceModSeq rest n (visit sinceModSeq acc record)

/-- `let maxChanges = args.maxChanges || 0;
if (!(maxChanges > 0 && maxChanges <= 1024)) maxChanges = 1024;` -/
def effectiveMaxChanges (maxChanges : Option Nat) : Nat :=
  let mc := maxChanges.getD 0
  if 0 < mc ∧ mc ≤ 1024 then mc else 1024

/-- Arguments of `changes`. `sinceState` is an arbitrary JS value;
`maxChanges` is an optional number. -/
structure ChangesArgs where
  sinceState : JSVal
  maxChanges : Option Nat

/-- A method result: `[true, payload]` or `[false, {type: errType}]`. -/
inductive CallResult (α : Type) where
  | ok : α → CallResult α
  | err : String → CallResult α
deriving DecidableEq

/-- Payload of a successful `changes` call. -/
structure ChangesResult where
  accountId : String
  oldState : String
  newState : String
  hasMoreChanges : Bool
  created : List String
  updated : List String
  destroyed : List String
deriving DecidableEq

/-- The scan section of `changes` (inside the readonly transaction, after
the `lowestModSeq` check): skipped entirely when
`highestModSeq === sinceModSeq`; otherwise run the cursor loop and, when it
was not truncated, move `upToModSeq` to the watermark's `highestModSeq`. -/
def changesScanResult (ts : TypeState) (sinceModSeq : Int) (maxChanges : Nat) : ScanAcc :=
  let acc0 : ScanAcc := ⟨sinceModSeq, false, [], [], []⟩
  if ts.highestModSeq ≠ sinceModSeq then
    let a := scanLoop sinceModSeq (changesScanList ts.records sinceModSeq) maxChanges acc0
    if ¬ a.hasMoreChanges then { a with upToModSeq := ts.highestModSeq } else a
  else acc0

/-- `JMAPServer.changes(typeName, args)`: validate `sinceState`
(non-string → `invalidArguments`; `parseInt` NaN → `cannotCalculateChanges`),
check the retention floor, scan, and build the result; `newState` is
`upToModSeq + ''`. -/
def changes (accountId : String) (ts : TypeState) (args : ChangesArgs) :
    CallResult ChangesResult :=
  match args.sinceState with
  | .vStr sinceState =>
    match parseIntJS sinceState with
    | none => .err "cannotCalculateChanges"
    | some sinceModSeq =>
      if ts.lowestModSeq > sinceModSeq then .err "cannotCalculateChanges"
      else
        let acc := changesScanResult ts sinceModSeq (effectiveMaxChanges args.maxChanges)
        .ok { accountId := accountId
              oldState := sinceState
              newState := toString acc.upToModSeq
              hasMoreChanges := acc.hasMoreChanges
              created := acc.created
              updated := acc.updated
              destroyed := acc.destroyed }
  | _ => .err "invalidArguments"

/-- `val == null` for a property read (`null` as well as `undefined`). -/
def isNullJS : JSVal → Bool
  | .vNull => true
  | _ => false

/-- Property read on a stored record value, covering the `id` key, the
metadata keys written by `addRecords`, and the user fields. -/
def recLookup (r : StoredRecord) (prop : String) : Option JSVal :=
  if prop == "id" then some (.vStr r.id)
  else if prop == "_createdModSeq" then some (.vNum r.createdModSeq)
  else if prop == "_updatedModSeq" then some (.vNum r.updatedModSeq)
  else if prop == "_deleted" then some (if r.deleted then .vBool true else .vNull)
  else objLookup r.fields prop

/-- The stored record as the raw JS object `typeStore.get` returns. -/
def recordToObj (r : StoredRecord) : List (String × JSVal) :=
  ("id", .vStr r.id) :: r.fields ++
    [("_createdModSeq", .vNum r.createdModSeq),
     ("_updatedModSeq", .vNum r.updatedModSeq),
     ("_deleted", if r.deleted then .vBool true else .vNull)]

/-- One step of the projection loop of `directGetProperties`:
`if (propVal != null) result[prop] = propVal`. -/
def projectStep (val : StoredRecord) (result : List (String × JSVal)) (prop : String) :
    List (String × JSVal) :=
  match recLookup val prop with
  | some propVal => if isNullJS propVal then result else objSet result prop propVal
  | none => result

/-- The projection of a found record when `properties` is non-null:
start from `{id: val.id}` and copy each requested non-null property. -/
def projectRecord (properties : List String) (val : StoredRecord) : List (String × JSVal) :=
  properties.foldl (projectStep val) [("id", .vStr val.id)]

/-- `directGetProperties(typeStore, ids, properties)`: per id, a primary-key
lookup; `none` models the `null` result for a missing record; with
`properties == null` the raw stored value is returned, else its projection. -/
def directGetProperties (typeStore : List StoredRecord) (ids : List String)
    (properties : Option (List String)) : List (Option (List (String × JSVal))) :=
  ids.map (fun id =>
    match storeGet typeStore id with
    | none => none
    | some val =>
      match properties with
      | none => some (recordToObj val)
      | some props => some (projectRecord props val))

/-- A registered method handler (the model of the async handler functions):
args in, `(ok, payload)` out. -/
def Handler : Type :=
  JSVal → Bool × JSVal

/-- The options object given to the `JMAPServer` constructor. -/
structure ServerOptions where
  accountId : String
  methods : List (String × Handler)
  maxObjectsInGet : Option Nat

/-- Instance state of a `JMAPServer`.  `maxObjectsInGet` is `Option` because
the field can be undefined. -/
structure Server where
  accountId : String
  methods : List (String × Handler)
  maxObjectsInGet : Option Nat

/-- The constructor (src lines 30-60) assigns only `this.accountId`,
`this.methods` and `this.db`; `options.maxObjectsInGet` is never copied onto
the instance, so `this.maxObjectsInGet` remains `undefined`. -/
def mkServer (options : ServerOptions) : Server :=
  { accountId := options.accountId
    methods := options.methods
    maxObjectsInGet := none }

/-- JS `a > b` where `b` may be `undefined`: any comparison against
`undefined` (NaN) is false. -/
def jsGtUndef (a : Nat) (b : Option Nat) : Bool :=
  match b with
  | some n => decide (n < a)
  | none => false

/-- Arguments of `get`. -/
structure GetArgs where
  ids : Option (List String)
  properties : Option (List String)
  accountId : String

/-- Payload of a successful `get` call. -/
structure GetResult where
  accountId : String
  state : String
  list : List (List (String × JSVal))
  notFound : List String

/-- `JMAPServer.get(typeName, args)` with the default fetch strategy
`directGetProperties`.  With `ids == null` the whole collection is counted
and then fetched raw via `getAll` (no projection); otherwise each id is
resolved and split into `found` / `notFound` in input order. -/
def get (srv : Server) (ts : TypeState) (args : GetArgs) : CallResult GetResult :=
  if (match args.ids with
      | some ids => jsGtUndef ids.length srv.maxObjectsInGet
      | none => false) then
    .err "requestTooLarge"
  else
    match args.ids with
    | none =>
      if jsGtUndef ts.records.length srv.maxObjectsInGet then .err "requestTooLarge"
      else
        .ok { accountId := args.accountId
              state := toString ts.highestModSeq
              list := ts.records.map recordToObj
              notFound := [] }
    | some ids =>
      let result := directGetProperties ts.records ids args.properties
      let pairs := ids.zip result
      .ok { accountId := args.accountId
            state := toString ts.highestModSeq
            list := pairs.filterMap (fun p => p.2)
            notFound := pairs.filterMap (fun p =>
              match p.2 with
              | none => some p.1
              | some _ => none) }

/-- The `isInvocation` validator of `process`: an array whose element 0 is a
string and whose element 1 is truthy with `typeof === 'object'`.  Note it
checks neither the length nor that element 2 (the callId) is a string. -/
def isInvocation (item : JSVal) : Bool :=
  match item with
  | .vArr xs =>
    (match xs.getD 0 .vUndefined with | .vStr _ => true | _ => false) &&
    truthy (xs.getD 1 .vUndefined) && typeofIsObject (xs.getD 1 .vUndefined)
  | _ => false

/-- `this.methods[name]` lookup. -/
def lookupMethod (methods : List (String × Handler)) (name : String) : Option Handler :=
  match methods with
  | [] => none
  | (k, fn) :: rest => if k == name then some fn else lookupMethod rest name

/-- One iteration of the dispatch loop: destructure
`[name, args, callId]`, resolve the handler, and build the response entry
(`unknownMethod` when unregistered, `error` on handler failure). -/
def dispatchOne (methods : List (String × Handler)) (item : JSVal) : JSVal × JSVal × JSVal :=
  let callId := jsIdx item 2
  match jsIdx item 0 with
  | .vStr name =>
    match lookupMethod methods name with
    | none => (.vStr "error", .vObj [("type", .vStr "unknownMethod")], callId)
    | some fn =>
      let r := fn (jsIdx item 1)
      ((if r.1 then .vStr name else .vStr "error"), r.2, callId)
  | _ => (.vStr "error", .vObj [("type", .vStr "unknownMethod")], callId)

/-- Outcome of `process`: either the async function rejects with a thrown
error, or it returns the ordered output list. -/
inductive ProcResult where
  | thrown : String → ProcResult
  | out : List (JSVal × JSVal × JSVal) → ProcResult

/-- `JMAPServer.process(request)`.  The failure paths call the identifier
`reject`, which is not defined anywhere in the module, so reaching either
of them throws a `ReferenceError` and the async function rejects before any
handler runs.  A request that passes the (weak) validation dispatches every
invocation in order. -/
def process (srv : Server) (request : JSVal) : ProcResult :=
  if ¬ truthy request then .thrown "ReferenceError: reject is not defined"
  else
    match jsGet request "methodCalls" with
    | .vArr items =>
      if items.all isInvocation then .out (items.map (dispatchOne srv.methods))
      else .thrown "ReferenceError: reject is not defined"
    | _ => .thrown "ReferenceError: reject is not defined"

/-! ## Mutation engine: modseq assignment and the id contract -/

lemma addLoop_ok (l : List (Option StoredRecord × RecordInput)) :
    ∀ modseq : Int, (∀ p ∈ l, p.2.id ≠ "") →
      addLoop l modseq = .ok (modseq + l.length, mergedBatch l modseq) := by
  induction l with
  | nil =>
    intro m h
    simp [addLoop, mergedBatch]
  | cons p rest ih =>
    intro m h
    obtain ⟨prev, rec⟩ := p
    have hid : rec.id ≠ "" := h (prev, rec) (List.mem_cons_self _ _)
    simp only [addLoop, mergedBatch]
    rw [if_neg (by simpa using hid), ih (m + 1) (fun q hq => h q (List.mem_cons_of_mem _ hq))]
    have : m + 1 + (rest.length : Int) = m + ((rest.length + 1 : Nat) : Int) := by
      push_cast
      ring
    simp [this]

lemma mergedBatch_map_updated (l : List (Option StoredRecord × RecordInput)) :
    ∀ m : Int, (mergedBatch l m).map (fun q => q.updatedModSeq)
      = (List.range l.length).map (fun i : Nat => m + 1 + (i : Int)) := by
  induction l with
  | nil =>
    intro m
    simp [mergedBatch]
  | cons p rest ih =>
    intro m
    obtain ⟨prev, rec⟩ := p
    simp only [mergedBatch, List.length_cons, List.range_succ_eq_map, List.map_cons,
      List.map_map]
    refine List.cons_eq_cons.mpr ⟨by simp [mergeRecord], ?_⟩
    rw [ih (m + 1)]
    refine List.map_congr_left (fun i hi => ?_)
    simp only [Function.comp_apply, Nat.succ_eq_add_one]
    push_cast
    ring

lemma mergedBatch_pairwise_lt (l : List (Option StoredRecord × RecordInput)) (m : Int) :
    List.Pairwise (fun a b : Int => a < b)
      ((mergedBatch l m).map (fun q => q.updatedModSeq)) := by
  rw [mergedBatch_map_updated l m, List.pairwise_map]
  exact (List.pairwise_lt_range l.length).imp (fun hab => by omega)

/-- **C4**: a batch of n records that passes the id check assigns, in input
order, exactly the modseq values `highestModSeq + 1 .. highestModSeq + n`
(strictly increasing, hence never reused), and commits with the watermark's
`highestModSeq` advanced to the last-assigned value. -/
theorem addRecords_assigns_batch_modseqs (ts : TypeState) (records : List RecordInput)
    (h : ∀ r ∈ records, r.id ≠ "") :
    addRecords ts records = .ok
        { records := (mergedBatch ((records.map (fun r => storeGet ts.records r.id)).zip records)
              ts.highestModSeq).foldl putRecord ts.records
          highestModSeq := ts.highestModSeq + records.length
          lowestModSeq := ts.lowestModSeq } ∧
    ((mergedBatch ((records.map (fun r => storeGet ts.records r.id)).zip records)
          ts.highestModSeq).map (fun q => q.updatedModSeq))
      = (List.range records.length).map (fun i : Nat => ts.highestModSeq + 1 + (i : Int)) ∧
    List.Pairwise (fun a b : Int => a < b)
      ((mergedBatch ((records.map (fun r => storeGet ts.records r.id)).zip records)
          ts.highestModSeq).map (fun q => q.updatedModSeq)) := by
  have hlen : ((records.map (fun r => storeGet ts.records r.id)).zip records).length
      = records.length := by
    simp
  have hne : ∀ p ∈ (records.map (fun r => storeGet ts.records r.id)).zip records,
      p.2.id ≠ "" := by
    intro p hp
    exact h p.2 (List.of_mem_zip hp).2
  refine ⟨?_, ?_, mergedBatch_pairwise_lt _ _⟩
  · simp only [addRecords]
    rw [addLoop_ok _ ts.highestModSeq hne, hlen]
  · rw [mergedBatch_map_updated, hlen]

/-- Witness for C4: two fresh records on an empty store get modseqs 1 and 2
and the watermark ends at 2. -/
theorem addRecords_assigns_batch_modseqs_witness :
    addRecords ⟨[], 0, 0⟩ [⟨"a", []⟩, ⟨"b", []⟩] =
      .ok ⟨[⟨"a", [], 1, 1, false⟩, ⟨"b", [], 2, 2, false⟩], 2, 0⟩ :=
  (addRecords_assigns_batch_modseqs ⟨[], 0, 0⟩ [⟨"a", []⟩, ⟨"b", []⟩] (by decide)).1

lemma addLoop_error (l : List (Option StoredRecord × RecordInput)) :
    ∀ m : Int, (∃ p ∈ l, p.2.id = "") → addLoop l m = .error "Must have an id!" := by
  induction l with
  | nil =>
    simp
  | cons p rest ih =>
    intro m h
    obtain ⟨prev, rec⟩ := p
    simp only [addLoop]
    by_cases hid : rec.id = ""
    · rw [if_pos (by simpa using hid)]
    · rw [if_neg (by simpa using hid)]
      have hrest : ∃ q ∈ rest, q.2.id = "" := by
        rcases h with ⟨q, hq, hq2⟩
        rcases List.mem_cons.mp hq with h1 | h2
        · rw [h1] at hq2
          exact absurd hq2 hid
        · exact ⟨q, h2, hq2⟩
      rw [ih (m + 1) hrest]

lemma exists_zip_pair {α β : Type} (xs : List α) (ys : List β) (h : xs.length = ys.length) :
    ∀ y ∈ ys, ∃ x, (x, y) ∈ xs.zip ys := by
  induction ys generalizing xs with
  | nil =>
    simp
  | cons y rest ih =>
    cases xs with
    | nil =>
      simp at h
    | cons x xs =>
      intro z hz
      rcases List.mem_cons.mp hz with h1 | h2
      · exact ⟨x, by simp [h1]⟩
      · obtain ⟨x2, hx2⟩ := ih xs (by simpa using h) z h2
        exact ⟨x2, List.mem_cons_of_mem _ hx2⟩

/-- **C7**: a batch containing a record with an absent/empty id fails as a
whole with the id-required error; the `Except.error` result carries no
state, so neither the record collection nor the watermark changes (the
aborted transaction commits nothing, not even records earlier in the
batch). -/
theorem addRecords_id_required (ts : TypeState) (records : List RecordInput)
    (h : ∃ r ∈ records, r.id = "") :
    addRecords ts records = .error "Must have an id!" := by
  obtain ⟨r, hr, hid⟩ := h
  obtain ⟨prev, hmem⟩ :=
    exists_zip_pair (records.map (fun rec => storeGet ts.records rec.id)) records
      (List.length_map _ _) r hr
  have herr := addLoop_error ((records.map (fun rec => storeGet ts.records rec.id)).zip records)
    ts.highestModSeq ⟨(prev, r), hmem, hid⟩
  simp [addRecords, herr]

/-- Witness for C7: the second record's id is empty, the whole call errors. -/
theorem addRecords_id_required_witness :
    addRecords ⟨[], 5, 0⟩ [⟨"a", []⟩, ⟨"", []⟩] = .error "Must have an id!" :=
  addRecords_id_required ⟨[], 5, 0⟩ [⟨"a", []⟩, ⟨"", []⟩]
    ⟨⟨"", []⟩, List.mem_cons_of_mem _ (List.mem_cons_self _ _), rfl⟩

/-! ## Change engine: scan characterisation -/

/-- The code's condition for classifying a visited record as `created`:
not tombstoned and `_createdModSeq > sinceModSeq`. -/
def classCreated (sinceModSeq : Int) (r : StoredRecord) : Bool :=
  !r.deleted && decide (sinceModSeq < r.createdModSeq)

/-- The code's condition for classifying a visited record as `updated`. -/
def classUpdated (sinceModSeq : Int) (r : StoredRecord) : Bool :=
  !r.deleted && !(decide (sinceModSeq < r.createdModSeq))

/-- The code's condition for classifying a visited record as `destroyed`. -/
def classDestroyed (sinceModSeq : Int) (r : StoredRecord) : Bool :=
  r.deleted && !(decide (sinceModSeq < r.createdModSeq))

lemma visit_created (s : Int) (acc : ScanAcc) (r : StoredRecord) :
    (visit s acc r).created =
      if classCreated s r then acc.created ++ [r.id] else acc.created := by
  cases hd : r.deleted <;> by_cases hc : s < r.createdModSeq <;>
    simp [visit, classCreated, hd, hc]

lemma visit_updated (s : Int) (acc : ScanAcc) (r : StoredRecord) :
    (visit s acc r).updated =
      if classUpdated s r then acc.updated ++ [r.id] else acc.updated := by
  cases hd : r.deleted <;> by_cases hc : s < r.createdModSeq <;>
    simp [visit, classUpdated, hd, hc]

lemma visit_destroyed (s : Int) (acc : ScanAcc) (r : StoredRecord) :
    (visit s acc r).destroyed =
      if classDestroyed s r then acc.destroyed ++ [r.id] else acc.destroyed := by
  cases hd : r.deleted <;> by_cases hc : s < r.createdModSeq <;>
    simp [visit, classDestroyed, hd, hc]

lemma visit_upTo (s : Int) (acc : ScanAcc) (r : StoredRecord) :
    (visit s acc r).upToModSeq = r.updatedModSeq := by
  cases hd : r.deleted <;> by_cases hc : s < r.createdModSeq <;> simp [visit, hd, hc]

lemma visit_hasMore (s : Int) (acc : ScanAcc) (r : StoredRecord) :
    (visit s acc r).hasMoreChanges = acc.hasMoreChanges := by
  cases hd : r.deleted <;> by_cases hc : s < r.createdModSeq <;> simp [visit, hd, hc]

/-- Full characterisation of the classification fold over a visited list. -/
lemma foldl_visit_spec (s : Int) (l : List StoredRecord) : ∀ acc : ScanAcc,
    (l.foldl (visit s) acc).created
        = acc.created ++ (l.filter (classCreated s)).map (fun r => r.id) ∧
    (l.foldl (visit s) acc).updated
        = acc.updated ++ (l.filter (classUpdated s)).map (fun r => r.id) ∧
    (l.foldl (visit s) acc).destroyed
        = acc.destroyed ++ (l.filter (classDestroyed s)).map (fun r => r.id) ∧
    (l.foldl (visit s) acc).hasMoreChanges = acc.hasMoreChanges ∧
    (l.foldl (visit s) acc).upToModSeq
        = (l.getLast?.map (fun r => r.updatedModSeq)).getD acc.upToModSeq := by
  induction l with
  | nil =>
    intro acc
    simp
  | cons r rest ih =>
    intro acc
    obtain ⟨h1, h2, h3, h4, h5⟩ := ih (visit s acc r)
    simp only [List.foldl_cons]
    refine ⟨?_, ?_, ?_, ?_, ?_⟩
    · rw [h1, visit_created, List.filter_cons]
      by_cases hc : classCreated s r = true <;> simp [hc]
    · rw [h2, visit_updated, List.filter_cons]
      by_cases hc : classUpdated s r = true <;> simp [hc]
    · rw [h3, visit_destroyed, List.filter_cons]
      by_cases hc : classDestroyed s r = true <;> simp [hc]
    · rw [h4, visit_hasMore]
    · rw [h5]
      cases rest with
      | nil =>
        simp [visit_upTo]
      | cons r2 rest2 =>
        rw [List.getLast?_cons_cons]
        cases hgl : (r2 :: rest2).getLast? with
        | none =>
          simp at hgl
        | some y =>
          simp [hgl]

lemma scanLoop_of_length_le (s : Int) (l : List StoredRecord) : ∀ (n : Nat) (acc : ScanAcc),
    l.length ≤ n → scanLoop s l n acc = l.foldl (visit s) acc := by
  induction l with
  | nil =>
    intro n acc h
    cases n <;> simp [scanLoop]
  | cons r rest ih =>
    intro n acc h
    cases n with
    | zero =>
      simp at h
    | succ n =>
      simp only [scanLoop, List.foldl_cons]
      exact ih n _ (by simpa using h)

lemma scanLoop_of_lt_length (s : Int) (l : List StoredRecord) : ∀ (n : Nat) (acc : ScanAcc),
    n < l.length →
      scanLoop s l n acc = { (l.take n).foldl (visit s) acc with hasMoreChanges := true } := by
  induction l with
  | nil =>
    intro n acc h
    simp at h
  | cons r rest ih =>
    intro n acc h
    cases n with
    | zero =>
      simp [scanLoop]
    | succ n =>
      simp only [scanLoop, List.take_succ_cons, List.foldl_cons]
      exact ih n _ (by simpa using h)

lemma effectiveMaxChanges_pos (mc : Option Nat) : 1 ≤ effectiveMaxChanges mc := by
  simp only [effectiveMaxChanges]
  split <;> omega

lemma changesScanResult_noop (ts : TypeState) (since : Int) (m : Nat)
    (heq : ts.highestModSeq = since) :
    changesScanResult ts since m = ⟨since, false, [], [], []⟩ := by
  simp [changesScanResult, heq]

lemma changesScanResult_exhaust (ts : TypeState) (since : Int) (m : Nat)
    (hne : ts.highestModSeq ≠ since)
    (hlen : (changesScanList ts.records since).length ≤ m) :
    changesScanResult ts since m =
      { (changesScanList ts.records since).foldl (visit since) ⟨since, false, [], [], []⟩ with
        upToModSeq := ts.highestModSeq } := by
  have hmc : ((changesScanList ts.records since).foldl (visit since)
      ⟨since, false, [], [], []⟩).hasMoreChanges = false :=
    (foldl_visit_spec since (changesScanList ts.records since) _).2.2.2.1
  simp only [changesScanResult, if_pos hne]
  rw [scanLoop_of_length_le since _ m _ hlen, if_pos (by simp [hmc])]

lemma changesScanResult_trunc (ts : TypeState) (since : Int) (m : Nat)
    (hne : ts.highestModSeq ≠ since)
    (hlen : m < (changesScanList ts.records since).length) :
    changesScanResult ts since m =
      { ((changesScanList ts.records since).take m).foldl (visit since)
          ⟨since, false, [], [], []⟩ with
        hasMoreChanges := true } := by
  simp only [changesScanResult, if_pos hne]
  rw [scanLoop_of_lt_length since _ m _ hlen, if_neg (by simp)]

/-- The success shape of `changes` once `sinceState` parses and the retention
check passes. -/
lemma changes_ok_of_parse (acct : String) (ts : TypeState) (s : String) (mc : Option Nat)
    (since : Int) (hparse : parseIntJS s = some since) (hlow : ts.lowestModSeq ≤ since) :
    changes acct ts ⟨.vStr s, mc⟩ = .ok
      { accountId := acct
        oldState := s
        newState := toString (changesScanResult ts since (effectiveMaxChanges mc)).upToModSeq
        hasMoreChanges := (changesScanResult ts since (effectiveMaxChanges mc)).hasMoreChanges
        created := (changesScanResult ts since (effectiveMaxChanges mc)).created
        updated := (changesScanResult ts since (effectiveMaxChanges mc)).updated
        destroyed := (changesScanResult ts since (effectiveMaxChanges mc)).destroyed } := by
  simp only [changes, hparse]
  rw [if_neg (not_lt.mpr hlow)]

lemma changesScanList_eq_nil (ts : TypeState) (since : Int)
    (hwf : ∀ r ∈ ts.records, r.updatedModSeq ≤ ts.highestModSeq)
    (heq : ts.highestModSeq = since) :
    changesScanList ts.records since = [] := by
  refine List.filter_eq_nil_iff.mpr (fun r hr => ?_)
  have hmem : r ∈ ts.records :=
    (List.perm_insertionSort modSeqLE ts.records).mem_iff.mp hr
  have h2 := hwf r hmem
  simp only [decide_eq_true_eq]
  omega

/-- **C6**: classification of the records visited by the `changes` scan
(the first `maxChanges` records with `updatedModSeq > sinceModSeq`,
ascending): tombstoned and created at or before `sinceModSeq` → destroyed;
tombstoned and created after → in no list; live and created after →
created; otherwise → updated. -/
theorem changes_scan_classification (acct : String) (ts : TypeState) (s : String)
    (mc : Option Nat) (sinceModSeq : Int)
    (hparse : parseIntJS s = some sinceModSeq)
    (hlow : ts.lowestModSeq ≤ sinceModSeq)
    (hwf : ∀ r ∈ ts.records, r.updatedModSeq ≤ ts.highestModSeq) :
    ∃ res, changes acct ts ⟨.vStr s, mc⟩ = .ok res ∧
      res.created = (((changesScanList ts.records sinceModSeq).take
          (effectiveMaxChanges mc)).filter (classCreated sinceModSeq)).map (fun r => r.id) ∧
      res.updated = (((changesScanList ts.records sinceModSeq).take
          (effectiveMaxChanges mc)).filter (classUpdated sinceModSeq)).map (fun r => r.id) ∧
      res.destroyed = (((changesScanList ts.records sinceModSeq).take
          (effectiveMaxChanges mc)).filter (classDestroyed sinceModSeq)).map (fun r => r.id) := by
  refine ⟨_, changes_ok_of_parse acct ts s mc sinceModSeq hparse hlow, ?_, ?_, ?_⟩ <;>
    by_cases heq : ts.highestModSeq = sinceModSeq
  case pos =>
    rw [changesScanResult_noop ts sinceModSeq _ heq, changesScanList_eq_nil ts sinceModSeq hwf heq]
    simp
  case neg =>
    rcases le_or_lt (changesScanList ts.records sinceModSeq).length
        (effectiveMaxChanges mc) with hlen | hlen
    · rw [changesScanResult_exhaust ts sinceModSeq _ heq hlen, List.take_of_length_le hlen]
      simpa using (foldl_visit_spec sinceModSeq _ _).1
    · rw [changesScanResult_trunc ts sinceModSeq _ heq hlen]
      simpa using (foldl_visit_spec sinceModSeq _ _).1
  case pos =>
    rw [changesScanResult_noop ts sinceModSeq _ heq, changesScanList_eq_nil ts sinceModSeq hwf heq]
    simp
  case neg =>
    rcases le_or_lt (changesScanList ts.records sinceModSeq).length
        (effectiveMaxChanges mc) with hlen | hlen
    · rw [changesScanResult_exhaust ts sinceModSeq _ heq hlen, List.take_of_length_le hlen]
      simpa using (foldl_visit_spec sinceModSeq _ _).2.1
    · rw [changesScanResult_trunc ts sinceModSeq _ heq hlen]
      simpa using (foldl_visit_spec sinceModSeq _ _).2.1
  case pos =>
    rw [changesScanResult_noop ts sinceModSeq _ heq, changesScanList_eq_nil ts sinceModSeq hwf heq]
    simp
  case neg =>
    rcases le_or_lt (changesScanList ts.records sinceModSeq).length
        (effectiveMaxChanges mc) with hlen | hlen
    · rw [changesScanResult_exhaust ts sinceModSeq _ heq hlen, List.take_of_length_le hlen]
      simpa using (foldl_visit_spec sinceModSeq _ _).2.2.1
    · rw [changesScanResult_trunc ts sinceModSeq _ heq hlen]
      simpa using (foldl_visit_spec sinceModSeq _ _).2.2.1

/-- Projection of the `created` list out of a `changes` result. -/
def createdOf : CallResult ChangesResult → List String
  | .ok r => r.created
  | .err _ => []

/-- Projection of the `updated` list out of a `changes` result. -/
def updatedOf : CallResult ChangesResult → List String
  | .ok r => r.updated
  | .err _ => []

/-- Projection of the `destroyed` list out of a `changes` result. -/
def destroyedOf : CallResult ChangesResult → List String
  | .ok r => r.destroyed
  | .err _ => []

/-- Projection of `newState` out of a `changes` result. -/
def newStateOf : CallResult ChangesResult → String
  | .ok r => r.newState
  | .err _ => ""

/-- Projection of `hasMoreChanges` out of a `changes` result. -/
def hasMoreOf : CallResult ChangesResult → Bool
  | .ok r => r.hasMoreChanges
  | .err _ => false

/-- A concrete store used by witnesses: one destroyed, one suppressed
tombstone, one created and one updated record relative to sinceModSeq 2. -/
def tsSix : TypeState :=
  { records := [⟨"d", [], 1, 3, true⟩, ⟨"s", [], 4, 4, true⟩, ⟨"c", [], 5, 5, false⟩,
      ⟨"u", [], 1, 6, false⟩]
    highestModSeq := 6
    lowestModSeq := 0 }

/-- Witness for C6 at `tsSix`, `sinceState = "2"`. -/
theorem changes_scan_classification_witness :
    createdOf (changes "foo" tsSix ⟨.vStr "2", none⟩) = ["c"] ∧
    updatedOf (changes "foo" tsSix ⟨.vStr "2", none⟩) = ["u"] ∧
    destroyedOf (changes "foo" tsSix ⟨.vStr "2", none⟩) = ["d"] := by
  obtain ⟨res, h1, h2, h3, h4⟩ :=
    changes_scan_classification "foo" tsSix "2" none 2 (by decide) (by decide) (by decide)
  refine ⟨?_, ?_, ?_⟩ <;> rw [h1]
  · rw [show createdOf (CallResult.ok res) = res.created from rfl, h2]
    rfl
  · rw [show updatedOf (CallResult.ok res) = res.updated from rfl, h3]
    rfl
  · rw [show destroyedOf (CallResult.ok res) = res.destroyed from rfl, h4]
    rfl

/-- **C8 (amended)**: when the parsed `sinceModSeq` equals the watermark's
`highestModSeq` (and is within retention), `changes` returns immediately
with empty lists, `hasMoreChanges = false`, and `newState` equal to the
canonical decimal string of the parsed `sinceModSeq` — which equals the
passed-in `sinceState` exactly when that string is canonical. -/
theorem changes_noop_resync (acct : String) (ts : TypeState) (s : String) (mc : Option Nat)
    (sinceModSeq : Int) (hparse : parseIntJS s = some sinceModSeq)
    (hlow : ts.lowestModSeq ≤ sinceModSeq) (heq : ts.highestModSeq = sinceModSeq) :
    changes acct ts ⟨.vStr s, mc⟩ = .ok
      { accountId := acct, oldState := s, newState := toString sinceModSeq
        hasMoreChanges := false, created := [], updated := [], destroyed := [] } := by
  rw [changes_ok_of_parse acct ts s mc sinceModSeq hparse hlow,
    changesScanResult_noop ts sinceModSeq _ heq]

/-- Witness for C8 (amended): canonical token "6" at watermark 6. -/
theorem changes_noop_resync_witness :
    changes "foo" tsSix ⟨.vStr "6", none⟩ =
      .ok ⟨"foo", "6", "6", false, [], [], []⟩ :=
  changes_noop_resync "foo" tsSix "6" none 6 (by decide) (by decide) (by decide)

/-- Counterexample to C8 as stated: `sinceState = "007"` parses to the
watermark 7, but `newState` is the re-stringified `"7"`, not the passed-in
`"007"`. -/
theorem changes_noop_resync_cex :
    changes "foo" ⟨[], 7, 0⟩ ⟨.vStr "007", none⟩ =
      .ok ⟨"foo", "007", "7", false, [], [], []⟩ ∧ ("7" : String) ≠ "007" :=
  ⟨rfl, by decide⟩

/-- **C2 (amended)**: a non-string `sinceState` fails with
`invalidArguments`; a string that does not parse (`parseInt` NaN) fails
with `cannotCalculateChanges` — the same error type as an expired token,
not a distinct one. -/
theorem changes_sinceState_validation (acct : String) (ts : TypeState) (args : ChangesArgs) :
    ((∀ s, args.sinceState ≠ .vStr s) → changes acct ts args = .err "invalidArguments") ∧
    (∀ s, args.sinceState = .vStr s → parseIntJS s = none →
      changes acct ts args = .err "cannotCalculateChanges") := by
  obtain ⟨ss, mc⟩ := args
  constructor
  · intro h
    cases ss with
    | vStr s => exact absurd rfl (h s)
    | vUndefined => rfl
    | vNull => rfl
    | vBool b => rfl
    | vNum n => rfl
    | vArr xs => rfl
    | vObj fields => rfl
  · intro s hs hnone
    have : ss = .vStr s := hs
    rw [this]
    simp [changes, hnone]

/-- Witness for C2 (amended): a number argument and an unparsable string. -/
theorem changes_sinceState_validation_witness :
    changes "foo" ⟨[], 0, 0⟩ ⟨.vNum 5, none⟩ = .err "invalidArguments" ∧
    changes "foo" ⟨[], 0, 0⟩ ⟨.vStr "adsfadsf", none⟩ = .err "cannotCalculateChanges" :=
  ⟨(changes_sinceState_validation "foo" ⟨[], 0, 0⟩ ⟨.vNum 5, none⟩).1
      (fun s h => JSVal.noConfusion h),
   (changes_sinceState_validation "foo" ⟨[], 0, 0⟩ ⟨.vStr "adsfadsf", none⟩).2
      "adsfadsf" rfl (by decide)⟩

/-- Counterexample to C2 as stated: the malformed string "adsfadsf" yields
`cannotCalculateChanges`, not the claimed `invalidArguments`. -/
theorem changes_sinceState_validation_cex :
    changes "foo" ⟨[], 0, 0⟩ ⟨.vStr "adsfadsf", none⟩ = .err "cannotCalculateChanges" ∧
    ("cannotCalculateChanges" : String) ≠ "invalidArguments" :=
  ⟨rfl, by decide⟩

/-- Replace the `oldState` field of a successful `changes` result. -/
def setOldState (s : String) : CallResult ChangesResult → CallResult ChangesResult
  | .ok r => .ok { r with oldState := s }
  | .err e => .err e

/-- **C10 (amended)**: two `sinceState` strings that `parseInt` to the same
value (e.g. "12abc" and its leading numeral "12") produce identical
`changes` behaviour except that the result's `oldState` echoes the string
actually passed. -/
theorem changes_numeral_head (acct : String) (ts : TypeState) (mc : Option Nat)
    (s t : String) (m : Int) (hs : parseIntJS s = some m) (ht : parseIntJS t = some m) :
    changes acct ts ⟨.vStr s, mc⟩ = setOldState s (changes acct ts ⟨.vStr t, mc⟩) := by
  by_cases hlow : ts.lowestModSeq > m
  · simp [changes, hs, ht, hlow, setOldState]
  · rw [changes_ok_of_parse acct ts s mc m hs (not_lt.mp hlow),
      changes_ok_of_parse acct ts t mc m ht (not_lt.mp hlow)]
    rfl

/-- Witness for C10 (amended) at a concrete state and "12abc" / "12". -/
theorem changes_numeral_head_witness :
    changes "foo" ⟨[], 12, 0⟩ ⟨.vStr "12abc", none⟩ =
      setOldState "12abc" (changes "foo" ⟨[], 12, 0⟩ ⟨.vStr "12", none⟩) :=
  changes_numeral_head "foo" ⟨[], 12, 0⟩ none "12abc" "12" 12 (by decide) (by decide)

/-- Counterexample to C10 as stated ("behaves exactly as if sinceState were
the leading numeral"): the two calls differ, because `oldState` echoes the
raw string. -/
theorem changes_numeral_head_cex :
    changes "foo" ⟨[], 12, 0⟩ ⟨.vStr "12abc", none⟩ ≠
      changes "foo" ⟨[], 12, 0⟩ ⟨.vStr "12", none⟩ := by
  decide

/-! ## Change engine: pagination and exact resumption -/

/-- Strict ordering on records by `_updatedModSeq`. -/
def ltUpd (a b : StoredRecord) : Prop :=
  a.updatedModSeq < b.updatedModSeq

lemma changesScanList_sorted (recs : List StoredRecord) (since : Int) :
    List.Pairwise modSeqLE (changesScanList recs since) :=
  (List.sorted_insertionSort modSeqLE recs).filter _

lemma changesScanList_pairwise_lt (recs : List StoredRecord) (since : Int)
    (hnodup : (recs.map (fun r => r.updatedModSeq)).Nodup) :
    List.Pairwise ltUpd (changesScanList recs since) := by
  have hsort := changesScanList_sorted recs since
  have hperm : List.Perm ((byModSeqAsc recs).map (fun r => r.updatedModSeq))
      (recs.map (fun r => r.updatedModSeq)) :=
    (List.perm_insertionSort modSeqLE recs).map _
  have h1 : ((byModSeqAsc recs).map (fun r => r.updatedModSeq)).Nodup :=
    hperm.nodup_iff.mpr hnodup
  have h2 : List.Pairwise (fun a b : StoredRecord => a.updatedModSeq ≠ b.updatedModSeq)
      (byModSeqAsc recs) := List.pairwise_map.mp h1
  have h3 := h2.filter (fun r => decide (since < r.updatedModSeq))
  exact (hsort.and h3).imp (fun h => lt_of_le_of_ne h.1 h.2)

lemma pairwise_le_of_getLast :
    ∀ l : List StoredRecord, List.Pairwise ltUpd l → ∀ x, l.getLast? = some x →
      ∀ a ∈ l, a.updatedModSeq ≤ x.updatedModSeq := by
  intro l
  induction l with
  | nil =>
    intro _ x hx
    simp at hx
  | cons r rest ih =>
    intro hp x hx a ha
    cases rest with
    | nil =>
      simp at hx ha
      rw [ha, ← hx]
    | cons r2 rest2 =>
      rw [List.getLast?_cons_cons] at hx
      rcases List.mem_cons.mp ha with h1 | h2
      · have hxmem : x ∈ r2 :: rest2 := List.mem_of_getLast?_eq_some hx
        have hlt := (List.pairwise_cons.mp hp).1 x hxmem
        rw [h1]
        exact le_of_lt hlt
      · exact ih (List.pairwise_cons.mp hp).2 x hx a h2

lemma getLast_take_lt_drop (l : List StoredRecord) (hp : List.Pairwise ltUpd l)
    (m : Nat) (x : StoredRecord) (hx : (l.take m).getLast? = some x) :
    ∀ b ∈ l.drop m, x.updatedModSeq < b.updatedModSeq := by
  have hp2 : List.Pairwise ltUpd (l.take m ++ l.drop m) := by
    rw [List.take_append_drop m l]
    exact hp
  intro b hb
  exact (List.pairwise_append.mp hp2).2.2 x (List.mem_of_getLast?_eq_some hx) b hb

/-- Exact resumption: when the first call stops at the record `x` (the last
of the first `m` pending records), the pending list of a follow-up scan
from `x.updatedModSeq` is exactly the remainder of the original pending
list — no gaps, no duplicates. -/
lemma changesScanList_resume (recs : List StoredRecord) (since : Int) (m : Nat)
    (hnodup : (recs.map (fun r => r.updatedModSeq)).Nodup)
    (x : StoredRecord)
    (hx : ((changesScanList recs since).take m).getLast? = some x) :
    changesScanList recs x.updatedModSeq = (changesScanList recs since).drop m := by
  have hplt : List.Pairwise ltUpd (changesScanList recs since) :=
    changesScanList_pairwise_lt recs since hnodup
  have hxpend : x ∈ changesScanList recs since :=
    List.take_subset m _ (List.mem_of_getLast?_eq_some hx)
  have hsx : since < x.updatedModSeq := by
    have := (List.mem_filter.mp hxpend).2
    simpa using this
  have hA : changesScanList recs x.updatedModSeq
      = (changesScanList recs since).filter
          (fun r => decide (x.updatedModSeq < r.updatedModSeq)) := by
    unfold changesScanList
    rw [List.filter_filter]
    refine (List.filter_congr (fun r hr => ?_)).symm.trans rfl
    by_cases h : x.updatedModSeq < r.updatedModSeq
    · have h2 : since < r.updatedModSeq := lt_trans hsx h
      simp [h, h2]
    · simp [h]
  have h1 : ((changesScanList recs since).take m).filter
      (fun r => decide (x.updatedModSeq < r.updatedModSeq)) = [] := by
    refine List.filter_eq_nil_iff.mpr (fun a ha => ?_)
    have hle := pairwise_le_of_getLast _ (hplt.sublist (List.take_sublist m _)) x hx a ha
    simpa using not_lt.mpr hle
  have h2 : ((changesScanList recs since).drop m).filter
      (fun r => decide (x.updatedModSeq < r.updatedModSeq))
      = (changesScanList recs since).drop m := by
    refine List.filter_eq_self.mpr (fun b hb => ?_)
    simpa using getLast_take_lt_drop _ hplt m x hx b hb
  rw [hA]
  conv_lhs => rw [← List.take_append_drop m (changesScanList recs since)]
  rw [List.filter_append, h1, h2, List.nil_append]

/-- **C5**: when the scan is truncated at `maxChanges`, the result has
`hasMoreChanges = true` and `newState` is the decimal string of the last
visited record's `updatedModSeq`, and the pending list of a follow-up call
from that modseq is exactly the unvisited remainder (no gaps or
duplicates); when the scan exhausts the pending records within the limit,
`hasMoreChanges = false` and `newState` is the watermark's
`highestModSeq`. -/
theorem changes_pagination (acct : String) (ts : TypeState) (s : String) (mc : Option Nat)
    (sinceModSeq : Int)
    (hparse : parseIntJS s = some sinceModSeq)
    (hlow : ts.lowestModSeq ≤ sinceModSeq)
    (hnodup : (ts.records.map (fun r => r.updatedModSeq)).Nodup)
    (hwf : ∀ r ∈ ts.records, r.updatedModSeq ≤ ts.highestModSeq) :
    (effectiveMaxChanges mc < (changesScanList ts.records sinceModSeq).length →
      ∃ x res,
        ((changesScanList ts.records sinceModSeq).take (effectiveMaxChanges mc)).getLast?
            = some x ∧
        changes acct ts ⟨.vStr s, mc⟩ = .ok res ∧
        res.hasMoreChanges = true ∧
        res.newState = toString x.updatedModSeq ∧
        changesScanList ts.records x.updatedModSeq
          = (changesScanList ts.records sinceModSeq).drop (effectiveMaxChanges mc)) ∧
    ((changesScanList ts.records sinceModSeq).length ≤ effectiveMaxChanges mc →
      ∃ res, changes acct ts ⟨.vStr s, mc⟩ = .ok res ∧
        res.hasMoreChanges = false ∧
        res.newState = toString ts.highestModSeq) := by
  constructor
  · intro hlen
    have hne : ts.highestModSeq ≠ sinceModSeq := by
      intro heq
      rw [changesScanList_eq_nil ts sinceModSeq hwf heq] at hlen
      simp at hlen
    have htake_ne : (changesScanList ts.records sinceModSeq).take
        (effectiveMaxChanges mc) ≠ [] := by
      have hpos := effectiveMaxChanges_pos mc
      have : 0 < ((changesScanList ts.records sinceModSeq).take
          (effectiveMaxChanges mc)).length := by
        rw [List.length_take]
        omega
      exact List.ne_nil_of_length_pos this
    obtain ⟨x, hx⟩ := Option.isSome_iff_exists.mp (List.getLast?_isSome.mpr htake_ne)
    refine ⟨x, _, hx, changes_ok_of_parse acct ts s mc sinceModSeq hparse hlow, ?_, ?_,
      changesScanList_resume ts.records sinceModSeq (effectiveMaxChanges mc) hnodup x hx⟩
    · rw [changesScanResult_trunc ts sinceModSeq _ hne hlen]
    · rw [changesScanResult_trunc ts sinceModSeq _ hne hlen]
      have hupto := (foldl_visit_spec sinceModSeq
        ((changesScanList ts.records sinceModSeq).take (effectiveMaxChanges mc))
        ⟨sinceModSeq, false, [], [], []⟩).2.2.2.2
      rw [show ({ ((changesScanList ts.records sinceModSeq).take
            (effectiveMaxChanges mc)).foldl (visit sinceModSeq)
            ⟨sinceModSeq, false, [], [], []⟩ with hasMoreChanges := true } : ScanAcc).upToModSeq
          = (((changesScanList ts.records sinceModSeq).take
            (effectiveMaxChanges mc)).foldl (visit sinceModSeq)
            ⟨sinceModSeq, false, [], [], []⟩).upToModSeq from rfl, hupto, hx]
      rfl
  · intro hlen
    refine ⟨_, changes_ok_of_parse acct ts s mc sinceModSeq hparse hlow, ?_, ?_⟩ <;>
      by_cases heq : ts.highestModSeq = sinceModSeq
    case pos =>
      rw [changesScanResult_noop ts sinceModSeq _ heq]
    case neg =>
      rw [changesScanResult_exhaust ts sinceModSeq _ heq hlen]
      exact (foldl_visit_spec sinceModSeq (changesScanList ts.records sinceModSeq)
        ⟨sinceModSeq, false, [], [], []⟩).2.2.2.1
    case pos =>
      rw [changesScanResult_noop ts sinceModSeq _ heq, heq]
    case neg =>
      rw [changesScanResult_exhaust ts sinceModSeq _ heq hlen]

/-- A concrete store for the pagination witness: three live records with
modseqs 1, 2, 3. -/
def tsFive : TypeState :=
  { records := [⟨"a", [], 1, 1, false⟩, ⟨"b", [], 2, 2, false⟩, ⟨"c", [], 3, 3, false⟩]
    highestModSeq := 3
    lowestModSeq := 0 }

/-- Witness for C5: `maxChanges = 2` over three pending records truncates at
modseq 2 and the follow-up pending list is the third record; `maxChanges`
large enough exhausts with `newState` at the watermark. -/
theorem changes_pagination_witness :
    hasMoreOf (changes "foo" tsFive ⟨.vStr "0", some 2⟩) = true ∧
    newStateOf (changes "foo" tsFive ⟨.vStr "0", some 2⟩) = "2" ∧
    changesScanList tsFive.records 2 = (changesScanList tsFive.records 0).drop 2 ∧
    hasMoreOf (changes "foo" tsFive ⟨.vStr "0", some 5⟩) = false ∧
    newStateOf (changes "foo" tsFive ⟨.vStr "0", some 5⟩) = "3" := by
  obtain ⟨x, res, hx, h1, h2, h3, h4⟩ :=
    (changes_pagination "foo" tsFive "0" (some 2) 0 (by decide) (by decide) (by decide)
      (by decide)).1 (by decide)
  obtain ⟨res2, g1, g2, g3⟩ :=
    (changes_pagination "foo" tsFive "0" (some 5) 0 (by decide) (by decide) (by decide)
      (by decide)).2 (by decide)
  have hxb : x = ⟨"b", [], 2, 2, false⟩ := by
    have h := hx.symm.trans
      (show ((changesScanList tsFive.records 0).take (effectiveMaxChanges (some 2))).getLast?
          = some ⟨"b", [], 2, 2, false⟩ from rfl)
    exact Option.some.inj h
  refine ⟨?_, ?_, ?_, ?_, ?_⟩
  · rw [h1]
    exact h2
  · rw [h1]
    rw [show newStateOf (CallResult.ok res) = res.newState from rfl, h3, hxb]
    decide
  · rw [← show x.updatedModSeq = 2 from by rw [hxb]]
    exact h4
  · rw [g1]
    exact g2
  · rw [g1]
    exact g3

/-! ## Query engine: projection and the unenforced cap -/

lemma objLookup_objSet (o : List (String × JSVal)) (k : String) (v : JSVal) : ∀ k2,
    objLookup (objSet o k v) k2 = if k2 = k then some v else objLookup o k2 := by
  induction o with
  | nil =>
    intro k2
    by_cases h : k2 = k
    · simp [objSet, objLookup, h]
    · have h2 : ¬ k = k2 := fun hh => h hh.symm
      simp [objSet, objLookup, h, beq_iff_eq, h2]
  | cons kv rest ih =>
    obtain ⟨k3, v3⟩ := kv
    intro k2
    by_cases h3 : k3 = k
    · by_cases h : k2 = k
      · simp [objSet, objLookup, beq_iff_eq, h3, h, h3.trans h.symm]
      · have h2 : ¬ k = k2 := fun hh => h hh.symm
        simp [objSet, objLookup, beq_iff_eq, h3, h, h2]
    · by_cases h2 : k3 = k2
      · have hk2 : ¬ k2 = k := fun hh => h3 (h2.trans hh)
        simp [objSet, objLookup, beq_iff_eq, h3, h2, hk2]
      · simp [objSet, objLookup, beq_iff_eq, h3, h2, ih k2]

/-- A record carries property `k` with a non-null (and non-undefined)
value. -/
def presentNonNull (val : StoredRecord) (k : String) : Bool :=
  match recLookup val k with
  | some w => !(isNullJS w)
  | none => false

lemma projectRecord_loop (val : StoredRecord) (props : List String) :
    ∀ (o : List (String × JSVal)) (k : String),
      objLookup (props.foldl (projectStep val) o) k =
        if k ∈ props ∧ presentNonNull val k = true then recLookup val k
        else objLookup o k := by
  induction props with
  | nil =>
    intro o k
    simp
  | cons p ps ih =>
    intro o k
    simp only [List.foldl_cons]
    rw [ih (projectStep val o p) k]
    by_cases hk : k ∈ ps ∧ presentNonNull val k = true
    · rw [if_pos hk, if_pos ⟨List.mem_cons_of_mem p hk.1, hk.2⟩]
    · rw [if_neg hk]
      by_cases hp : k = p
      · subst hp
        by_cases hnn : presentNonNull val k = true
        · cases hw : recLookup val k with
          | none =>
            rw [presentNonNull, hw] at hnn
            simp at hnn
          | some w =>
            have hnull : isNullJS w = false := by
              rw [presentNonNull, hw] at hnn
              simpa using hnn
            rw [if_pos ⟨List.mem_cons_self k ps, hnn⟩]
            simp [projectStep, hw, hnull, objLookup_objSet]
        · have hcond : ¬ (k ∈ k :: ps ∧ presentNonNull val k = true) :=
            fun hh => hnn hh.2
          rw [if_neg hcond]
          cases hw : recLookup val k with
          | none =>
            simp [projectStep, hw]
          | some w =>
            have hnull : isNullJS w = true := by
              rw [presentNonNull, hw] at hnn
              simpa using hnn
            simp [projectStep, hw, hnull]
      · have hstep : objLookup (projectStep val o p) k = objLookup o k := by
          cases hw : recLookup val p with
          | none =>
            simp [projectStep, hw]
          | some w =>
            by_cases hn : isNullJS w = true
            · simp [projectStep, hw, hn]
            · simp [projectStep, hw, hn, objLookup_objSet, hp]
        rw [hstep, if_neg (fun hh =>
          hk ⟨(List.mem_cons.mp hh.1).resolve_left hp, hh.2⟩)]

lemma directGetProperties_some (recs : List StoredRecord) (ids : List String)
    (props : List String) :
    directGetProperties recs ids (some props)
      = ids.map (fun id => (storeGet recs id).map (projectRecord props)) := by
  unfold directGetProperties
  refine List.map_congr_left (fun id _ => ?_)
  cases storeGet recs id <;> rfl

lemma zip_self_map_filterMap {α β : Type} (xs : List α) (f : α → Option β) :
    (xs.zip (xs.map f)).filterMap (fun p => p.2) = xs.filterMap f := by
  have hz : xs.zip (xs.map f) = xs.map (fun x => (x, f x)) := by
    have := List.zip_map' (fun x : α => x) f xs
    simpa using this
  rw [hz, List.filterMap_map]
  rfl

/-- **C9 (amended)**: when `ids` and `properties` are both supplied, each
found record in `get`'s result is the projection of the stored record:
exactly the `id` field plus those requested properties whose stored value
is neither absent nor null, and nothing else.  (When `ids` is omitted the
code returns raw `getAll` records and ignores `properties` — see the
counterexample.) -/
theorem get_projection (srv : Server) (ts : TypeState) (ids : List String)
    (props : List String) (acctArg : String) (res : GetResult)
    (h : get srv ts ⟨some ids, some props, acctArg⟩ = .ok res) :
    res.list = ids.filterMap (fun id => (storeGet ts.records id).map (projectRecord props)) ∧
    ∀ val k, objLookup (projectRecord props val) k =
      if k = "id" then some (.vStr val.id)
      else if k ∈ props ∧ presentNonNull val k = true then recLookup val k
      else none := by
  constructor
  · by_cases hcap : jsGtUndef ids.length srv.maxObjectsInGet = true
    · rw [show get srv ts ⟨some ids, some props, acctArg⟩ = .err "requestTooLarge" by
        simp [get, hcap]] at h
      cases h
    · have hok : get srv ts ⟨some ids, some props, acctArg⟩ = .ok
          { accountId := acctArg
            state := toString ts.highestModSeq
            list := (ids.zip (directGetProperties ts.records ids (some props))).filterMap
              (fun p => p.2)
            notFound := (ids.zip (directGetProperties ts.records ids (some props))).filterMap
              (fun p => match p.2 with | none => some p.1 | some _ => none) } := by
        simp [get, hcap]
      rw [hok] at h
      cases h
      rw [directGetProperties_some, zip_self_map_filterMap]
  · intro val k
    unfold projectRecord
    rw [projectRecord_loop]
    by_cases hid : k = "id"
    · subst hid
      by_cases hc : "id" ∈ props ∧ presentNonNull val "id" = true
      · rw [if_pos hc]
        rfl
      · rw [if_neg hc]
        rfl
    · rw [if_neg hid]
      by_cases hc : k ∈ props ∧ presentNonNull val k = true
      · rw [if_pos hc, if_pos hc]
      · rw [if_neg hc, if_neg hc]
        have h2 : ¬ "id" = k := fun hh => hid hh.symm
        simp [objLookup, beq_iff_eq, h2]

/-- A stored record with a requested and a non-requested field. -/
def recNine : StoredRecord :=
  ⟨"123", [("subject", .vStr "x"), ("body", .vStr "y")], 1, 1, false⟩

/-- Store holding only `recNine`. -/
def tsNine : TypeState :=
  ⟨[recNine], 1, 0⟩

/-- A server constructed with a cap of 1000 (which the constructor drops). -/
def srvNine : Server :=
  mkServer ⟨"foo", [], some 1000⟩

/-- The concrete result of `get(ids: ["123"], properties: ["subject"])`. -/
def resNine : GetResult :=
  ⟨"foo", "1", [[("id", .vStr "123"), ("subject", .vStr "x")]], []⟩

/-- Witness for C9 (amended): the projected record keeps `id` and `subject`
and drops `body`. -/
theorem get_projection_witness :
    resNine.list
        = ["123"].filterMap (fun id => (storeGet tsNine.records id).map
            (projectRecord ["subject"])) ∧
    objLookup (projectRecord ["subject"] recNine) "body" = none := by
  have h := get_projection srvNine tsNine ["123"] ["subject"] "foo" resNine rfl
  refine ⟨h.1, ?_⟩
  rw [h.2 recNine "body"]
  rfl

/-- Counterexample to C9 as stated: with `ids` omitted, `get` returns the
raw stored records via `getAll` and ignores `properties`, so the
non-requested `body` field appears in the result. -/
theorem get_projection_cex :
    get srvNine tsNine ⟨none, some ["subject"], "foo"⟩ =
      .ok ⟨"foo", "1", [recordToObj recNine], []⟩ ∧
    objLookup (recordToObj recNine) "body" = some (.vStr "y") :=
  ⟨rfl, rfl⟩

/-- **C1 (code bug)**: the constructor never copies
`options.maxObjectsInGet` onto the instance, so `this.maxObjectsInGet` is
`undefined`, both cap comparisons are false, and `get` never returns
`requestTooLarge`: a call with more ids than the configured cap, and a
whole-collection fetch larger than the cap, both succeed and read
storage. -/
theorem get_cap_never_enforced :
    (mkServer ⟨"foo", [], some 2⟩).maxObjectsInGet = none ∧
    get (mkServer ⟨"foo", [], some 2⟩) tsFive ⟨some ["a", "b", "c"], none, "foo"⟩ =
      .ok ⟨"foo", "3", [recordToObj ⟨"a", [], 1, 1, false⟩, recordToObj ⟨"b", [], 2, 2, false⟩,
        recordToObj ⟨"c", [], 3, 3, false⟩], []⟩ ∧
    get (mkServer ⟨"foo", [], some 2⟩) tsFive ⟨none, none, "foo"⟩ =
      .ok ⟨"foo", "3", tsFive.records.map recordToObj, []⟩ :=
  ⟨rfl, rfl, rfl⟩

/-! ## Dispatch layer: request validation and per-call dispatch -/

/-- **C3 (amended)**: `process` validates only that `methodCalls` is a
truthy array whose every element is an array with a string element 0 and a
truthy object-typed element 1 (`isInvocation`); a request failing that
check (or a falsy request) fails before any handler runs — the
malformed-request paths call the undefined identifier `reject`, so the
async function throws a `ReferenceError` rather than returning the intended
error object.  The check does not require 3 elements or a string callId:
an invocation such as `[name, args, 42]` passes validation and is
dispatched normally. -/
theorem process_validation (srv : Server) (request : JSVal) :
    (truthy request = false →
      process srv request = .thrown "ReferenceError: reject is not defined") ∧
    (∀ items, jsGet request "methodCalls" = .vArr items →
      (∃ item ∈ items, isInvocation item = false) →
      process srv request = .thrown "ReferenceError: reject is not defined") ∧
    (∀ items, truthy request = true → jsGet request "methodCalls" = .vArr items →
      (∀ item ∈ items, isInvocation item = true) →
      process srv request = .out (items.map (dispatchOne srv.methods))) ∧
    (truthy request = true → (∀ items, jsGet request "methodCalls" ≠ .vArr items) →
      process srv request = .thrown "ReferenceError: reject is not defined") := by
  refine ⟨?_, ?_, ?_, ?_⟩
  · intro h
    simp [process, h]
  · intro items harr hbad
    by_cases ht : truthy request = true
    · have hall : items.all isInvocation = false := by
        rcases hbad with ⟨it, hmem, hfalse⟩
        cases hcase : items.all isInvocation with
        | false => rfl
        | true =>
          have := List.all_eq_true.mp hcase it hmem
          rw [hfalse] at this
          cases this
      simp [process, ht, harr, hall]
    · simp [process, ht]
  · intro items ht harr hall
    have h2 : items.all isInvocation = true := List.all_eq_true.mpr hall
    simp [process, ht, harr, h2]
  · intro ht hnot
    cases harr : jsGet request "methodCalls" with
    | vArr items => exact absurd harr (hnot items)
    | vUndefined => simp [process, ht, harr]
    | vNull => simp [process, ht, harr]
    | vBool b => simp [process, ht, harr]
    | vNum n => simp [process, ht, harr]
    | vStr s => simp [process, ht, harr]
    | vObj fields => simp [process, ht, harr]

/-- A server with one registered handler, used by the dispatch witnesses. -/
def srvProc : Server :=
  ⟨"a", [("m", fun _ => (true, .vStr "ran"))], none⟩

/-- Witness for C3 (amended): a non-array `methodCalls` throws before any
handler runs; a well-shaped invocation is dispatched. -/
theorem process_validation_witness :
    process srvProc (.vObj [("methodCalls", .vNum 5)]) =
      .thrown "ReferenceError: reject is not defined" ∧
    process srvProc
        (.vObj [("methodCalls", .vArr [.vArr [.vStr "m", .vObj [], .vStr "c1"]])]) =
      .out [(.vStr "m", .vStr "ran", .vStr "c1")] := by
  constructor
  · exact (process_validation srvProc (.vObj [("methodCalls", .vNum 5)])).2.2.2 rfl
      (fun items h => JSVal.noConfusion h)
  · exact (process_validation srvProc
      (.vObj [("methodCalls", .vArr [.vArr [.vStr "m", .vObj [], .vStr "c1"]])])).2.2.1
      [.vArr [.vStr "m", .vObj [], .vStr "c1"]] rfl rfl (by decide)

/-- Counterexample to C3 as stated: the invocation `["m", {}, 42]` is not a
3-element `[name: string, args: object, callId: string]` (its callId is the
number 42), yet the request does not fail and the registered handler
executes, its payload appearing in the output. -/
theorem process_shape_cex :
    process srvProc (.vObj [("methodCalls", .vArr [.vArr [.vStr "m", .vObj [], .vNum 42]])]) =
      .out [(.vStr "m", .vStr "ran", .vNum 42)] :=
  rfl

end JMAP
